import Mathlib

/-!
Verification development for the masa-oracle Peer State & Reliability
Tracking subsystem (pkg/pubsub NodeEventTracker) and the API handlers that
read from it.

The API handlers (`GetNodeDataHandler`, `GetNodeHandler`, `GetPeerAddresses`)
are embedded from the source in `src/unnamed/part_000`.  The tracker itself
(`Connected`, `Disconnected`, `HandleNodeData`, `UpdateNodeDataTwitter`,
`GetUpdatedNodes`, `SortNodesByTwitterReliability`) is absent from the
sources; only its unit tests (`pkg/pubsub/node_event_tracker_test.go`) are
present.  Those operations are therefore modelled from the specification,
with every behaviour that the repository's own tests pin down taken from the
tests (which are authoritative code), and noted as such in each doc comment.

Timestamps are Unix seconds, modelled as `Int`, passed explicitly as `now`.
Durations are `Int` (seconds).  Publishing on the `NodeDataChan` channel is
modelled by returning the list of records published by an operation.
-/

/-- The `ActivityKind` enum: last transition observed for a peer
(`ActivityJoined` / `ActivityLeft` in the tests). -/
inductive Activity where
  | Joined : Activity
  | Left : Activity
deriving DecidableEq, Repr

/-- The per-peer record (`NodeData` in the tests), with the spec's field
names.  `Multiaddrs` is the list of network addresses (`NetworkAddresses`),
`CompletedTasks`/`LastCompletedAt` correspond to the Twitter reliability
counters `ReturnedTweets`/`LastReturnedTweet`, and
`TaskTimeouts`/`LastTimeoutAt` to `TweetTimeouts`/`LastTweetTimeout`.
`CurrentUptime` is the derived field the API handler fills in before
serialising a record. -/
structure NodeData where
  PeerId : String
  Multiaddrs : List String
  Version : String
  IsActive : Bool
  ActivityKind : Activity
  FirstSeenAt : Int
  LastSeenAt : Int
  LastUpdatedAt : Int
  SessionStartedAt : Option Int
  AccumulatedUptime : Int
  CurrentUptime : Int
  IsStaked : Bool
  IsTwitterScraper : Bool
  IsWebScraper : Bool
  CompletedTasks : Int
  TaskTimeouts : Int
  LastCompletedAt : Int
  LastTimeoutAt : Int
deriving DecidableEq, Repr

/-- The Go zero value of `NodeData`: empty strings and lists, `false`
booleans, zero timestamps and counters (`Activity` zero value is
`Joined`, the first enum constant). -/
def zeroNodeData : NodeData :=
  { PeerId := ""
    Multiaddrs := []
    Version := ""
    IsActive := false
    ActivityKind := .Joined
    FirstSeenAt := 0
    LastSeenAt := 0
    LastUpdatedAt := 0
    SessionStartedAt := none
    AccumulatedUptime := 0
    CurrentUptime := 0
    IsStaked := false
    IsTwitterScraper := false
    IsWebScraper := false
    CompletedTasks := 0
    TaskTimeouts := 0
    LastCompletedAt := 0
    LastTimeoutAt := 0 }

instance : Inhabited NodeData := ⟨zeroNodeData⟩

/-- A pending-connection marker (`ConnectBufferEntry` in the tests):
a snapshot of the record at connect time plus the connect timestamp. -/
structure ConnectBufferEntry where
  nodeData : NodeData
  connectTime : Int
deriving DecidableEq, Repr

/-- The concurrency-safe keyed store (`SafeMap`), modelled as an
association list keyed by the peer-id string; `storeSet` replaces in place
(preserving insertion order) or appends a fresh key. -/
abbrev Store (β : Type) := List (String × β)

/-- `get(id)`: first binding for the key, if any. -/
def storeGet {β : Type} : Store β → String → Option β
  | [], _ => none
  | (k', v') :: rest, k => if k' = k then some v' else storeGet rest k

/-- `set(id, record)`: whole-record replace, or append when absent. -/
def storeSet {β : Type} : Store β → String → β → Store β
  | [], k, v => [(k, v)]
  | (k', v') :: rest, k, v =>
    if k' = k then (k', v) :: rest else (k', v') :: storeSet rest k v

/-- Remove the bindings for a key (Go `delete(map, key)`, used for the
connect buffer). -/
def storeDel {β : Type} : Store β → String → Store β
  | [], _ => []
  | (k', v') :: rest, k =>
    if k' = k then storeDel rest k else (k', v') :: storeDel rest k

/-- The tracker state (`NodeEventTracker`): the record store, the pending
connection buffer, and the node version string. -/
structure NodeEventTracker where
  nodeData : Store NodeData
  ConnectBuffer : Store ConnectBufferEntry
  version : String
deriving DecidableEq, Repr

/-- `NewNodeEventTracker(version, environment, hostId)`: empty store and
buffer (per the tests, which start from this state). -/
def NewNodeEventTracker (version : String) : NodeEventTracker :=
  { nodeData := [], ConnectBuffer := [], version := version }

/-- Modelled from the spec: `currentUptime(record) = now - SessionStartedAt
if IsActive else 0` (`NodeData.GetCurrentUptime`, called from the
`GetNodeHandler` source; the function itself is not in the sources). -/
def GetCurrentUptime (nd : NodeData) (now : Int) : Int :=
  if nd.IsActive then
    match nd.SessionStartedAt with
    | some s => now - s
    | none => 0
  else 0

/-- Modelled from the spec: `accumulatedUptime(record) =
record.AccumulatedUptime + currentUptime(record)`
(`NodeData.GetAccumulatedUptime`). -/
def GetAccumulatedUptime (nd : NodeData) (now : Int) : Int :=
  nd.AccumulatedUptime + GetCurrentUptime nd now

/-- Embedded from `GetNodeHandler` (src/unnamed/part_000, lines 92-96):
the handler copies the record and overwrites its `CurrentUptime` and
`AccumulatedUptime` fields with the derived uptime values before
responding. -/
def GetNodeHandlerData (nd : NodeData) (now : Int) : NodeData :=
  { nd with
    CurrentUptime := GetCurrentUptime nd now
    AccumulatedUptime := GetAccumulatedUptime nd now }

/-- Modelled from the spec: the `Joined` transition of a record — open a
session: `IsActive = true`, `SessionStartedAt = now`,
`ActivityKind = Joined`, `LastSeenAt = now`, `LastUpdatedAt = now`, stamp
the version; `FirstSeenAt` is set on first observation only. -/
def joinedRecord (nd : NodeData) (version : String) (now : Int) : NodeData :=
  { nd with
    IsActive := true
    ActivityKind := .Joined
    SessionStartedAt := some now
    LastSeenAt := now
    LastUpdatedAt := now
    Version := version
    FirstSeenAt := if nd.FirstSeenAt = 0 then now else nd.FirstSeenAt }

/-- Modelled from the spec: the `Left` transition of a record — close a
session: session duration is `now - SessionStartedAt`, with fallback to the
ConnectBufferEntry's `connectTime` when `SessionStartedAt` is unset; the
duration is added to `AccumulatedUptime`; `IsActive = false`,
`ActivityKind = Left`, `LastSeenAt = now`, `LastUpdatedAt = now`,
`SessionStartedAt` cleared. -/
def leftRecord (nd : NodeData) (now : Int) (fallback : Option Int) : NodeData :=
  let dur : Int :=
    match nd.SessionStartedAt with
    | some s => now - s
    | none =>
      match fallback with
      | some c => now - c
      | none => 0
  { nd with
    AccumulatedUptime := nd.AccumulatedUptime + dur
    IsActive := false
    ActivityKind := .Left
    LastSeenAt := now
    LastUpdatedAt := now
    SessionStartedAt := none }

/-- Modelled from the spec: `onConnected(peerId)` (`Connected`), as pinned
by the repository's tests: an unknown peer is ignored (test "Connected with
non-existent node"); an already-active peer gets a ConnectBufferEntry
holding the current record snapshot and the current timestamp (test
"Connected with existing active node") — an existing entry is kept, per the
spec's "does not reset ... the buffer" — and the record is idempotently
re-stamped (`LastSeenAt`/`LastUpdatedAt`), per the spec's edge case; an
inactive peer's record takes the `Joined` transition and is published
(test "Connected with existing inactive node").  Returns the new state and
the records published on `NodeDataChan`. -/
def Connected (t : NodeEventTracker) (peerId : String) (now : Int) :
    NodeEventTracker × List NodeData :=
  match storeGet t.nodeData peerId with
  | none => (t, [])
  | some nd =>
    if nd.IsActive then
      let buf :=
        match storeGet t.ConnectBuffer peerId with
        | some _ => t.ConnectBuffer
        | none => storeSet t.ConnectBuffer peerId ⟨nd, now⟩
      let nd' := { nd with LastSeenAt := now, LastUpdatedAt := now }
      ({ t with nodeData := storeSet t.nodeData peerId nd', ConnectBuffer := buf },
       [nd'])
    else
      let nd' := joinedRecord nd t.version now
      ({ t with nodeData := storeSet t.nodeData peerId nd' }, [nd'])

/-- Modelled from the spec: `onDisconnected(peerId)` (`Disconnected`), as
pinned by the repository's tests: an unknown peer is ignored; when a
ConnectBufferEntry exists the entry is removed, the session is closed
(`Left`, duration falling back to the entry's `connectTime`) and then —
as the test "Disconnected with buffered node" asserts ("Will be active
because Joined is called after Left") — a new session is immediately opened
(`Joined`), so the record ends active; without an entry the record simply
takes the `Left` transition (test "Disconnected with non-buffered node").
The updated record is published either way. -/
def Disconnected (t : NodeEventTracker) (peerId : String) (now : Int) :
    NodeEventTracker × List NodeData :=
  match storeGet t.nodeData peerId with
  | none => (t, [])
  | some nd =>
    match storeGet t.ConnectBuffer peerId with
    | some entry =>
      let nd' := joinedRecord (leftRecord nd now (some entry.connectTime)) t.version now
      ({ t with
          nodeData := storeSet t.nodeData peerId nd'
          ConnectBuffer := storeDel t.ConnectBuffer peerId },
       [nd'])
    | none =>
      let nd' := leftRecord nd now none
      ({ t with nodeData := storeSet t.nodeData peerId nd' }, [nd'])

/-- Modelled from the spec: the accept-side merge of `applyUpdate` —
capability/role flags and network-address fields are overwritten wholesale
from the incoming record, reliability counters and `AccumulatedUptime` are
additive merges (incoming values are deltas), and the stored freshness
stamp becomes the incoming `LastUpdatedAt`. -/
def mergeRecord (stored incoming : NodeData) : NodeData :=
  { stored with
    IsStaked := incoming.IsStaked
    IsTwitterScraper := incoming.IsTwitterScraper
    IsWebScraper := incoming.IsWebScraper
    Multiaddrs := incoming.Multiaddrs
    Version := incoming.Version
    CompletedTasks := stored.CompletedTasks + incoming.CompletedTasks
    TaskTimeouts := stored.TaskTimeouts + incoming.TaskTimeouts
    AccumulatedUptime := stored.AccumulatedUptime + incoming.AccumulatedUptime
    LastCompletedAt := incoming.LastCompletedAt
    LastTimeoutAt := incoming.LastTimeoutAt
    LastUpdatedAt := incoming.LastUpdatedAt }

/-- Modelled from the spec: `applyUpdate(incoming)` (`HandleNodeData`) —
accept iff no stored record exists (a record is created wholesale from the
incoming data, as the test "New node data" pins) or
`incoming.LastUpdatedAt > stored.LastUpdatedAt`; on reject no mutation
occurs (test "Replay attack prevention").  Returns the new state and
whether the update was accepted. -/
def HandleNodeData (t : NodeEventTracker) (incoming : NodeData) :
    NodeEventTracker × Bool :=
  match storeGet t.nodeData incoming.PeerId with
  | none =>
    ({ t with nodeData := storeSet t.nodeData incoming.PeerId incoming }, true)
  | some stored =>
    if stored.LastUpdatedAt < incoming.LastUpdatedAt then
      ({ t with
          nodeData := storeSet t.nodeData incoming.PeerId (mergeRecord stored incoming) },
       true)
    else (t, false)

/-- Fold a sequence of gossip updates through `HandleNodeData`. -/
def handleAll (t : NodeEventTracker) (ds : List NodeData) : NodeEventTracker :=
  ds.foldl (fun s d => (HandleNodeData s d).1) t

/-- Modelled from the spec: `addTaskResult(peerId, completedDelta,
timeoutDelta, timeout)` (`UpdateNodeDataTwitter`) — `none` (NotFound) when
no record exists; otherwise `CompletedTasks += completedDelta`,
`TaskTimeouts += timeoutDelta`, stamp `LastTimeoutAt = now` when `timeout`
else `LastCompletedAt = now`, write and publish (the published record is
returned alongside the new state). -/
def UpdateNodeDataTwitter (t : NodeEventTracker) (peerId : String)
    (completedDelta timeoutDelta : Int) (timeout : Bool) (now : Int) :
    Option (NodeEventTracker × NodeData) :=
  match storeGet t.nodeData peerId with
  | none => none
  | some nd =>
    let nd' :=
      { nd with
        CompletedTasks := nd.CompletedTasks + completedDelta
        TaskTimeouts := nd.TaskTimeouts + timeoutDelta
        LastTimeoutAt := if timeout then now else nd.LastTimeoutAt
        LastCompletedAt := if timeout then nd.LastCompletedAt else now }
    some ({ t with nodeData := storeSet t.nodeData peerId nd' }, nd')

/-- `getAll()` (`GetAllNodeData`): point-in-time snapshot of the store. -/
def GetAllNodeData (t : NodeEventTracker) : List NodeData :=
  t.nodeData.map (fun p => p.2)

/-- Modelled from the spec: `getUpdatedSince(timestamp)`
(`GetUpdatedNodes`) — all records with `LastUpdatedAt > timestamp`. -/
def GetUpdatedNodes (t : NodeEventTracker) (since : Int) : List NodeData :=
  (GetAllNodeData t).filter (fun nd => since < nd.LastUpdatedAt)

/-- The composite ranking key of the reliability ranker: primary
`LastCompletedAt`, tie-broken by `LastTimeoutAt`. -/
def twitterKey (nd : NodeData) : Int × Int :=
  (nd.LastCompletedAt, nd.LastTimeoutAt)

/-- Modelled from the spec: the strict "ranks before" comparison of the
reliability ranker — `LastCompletedAt` descending, ties broken by
`LastTimeoutAt` ascending. -/
def twitterBefore (a b : NodeData) : Bool :=
  if a.LastCompletedAt = b.LastCompletedAt then
    decide (a.LastTimeoutAt < b.LastTimeoutAt)
  else decide (b.LastCompletedAt < a.LastCompletedAt)

/-- Stable insertion: `x` is placed before the first element that does not
strictly rank before it, so elements with equal keys keep their input
order. -/
def insertRanked (x : NodeData) : List NodeData → List NodeData
  | [] => [x]
  | y :: ys =>
    if twitterBefore y x then y :: insertRanked x ys else x :: y :: ys

/-- Modelled from the spec: `rank(records)`
(`SortNodesByTwitterReliability`) — a stable sort of the records under
`twitterBefore`. -/
def SortNodesByTwitterReliability : List NodeData → List NodeData
  | [] => []
  | x :: xs => insertRanked x (SortNodesByTwitterReliability xs)

/-- Two's-complement wrap of Go's 64-bit `int`: the result of an `int`
arithmetic operation is reduced into `[-2^63, 2^63)` (the numerals are
`2^63` and `2^64`). -/
def goInt (x : Int) : Int :=
  (x + 9223372036854775808) % 18446744073709551616 - 9223372036854775808

/-- Embedded from `GetNodeDataHandler` (src/unnamed/part_000, lines 45-59):
`startIndex := pageNbr * pageSize; endIndex := startIndex + pageSize;
if endIndex > totalRecords { endIndex = totalRecords }`.  Go `int`
arithmetic is 64-bit and wraps on overflow, so both intermediate results
are reduced by `goInt`. -/
def getNodeDataPageBounds (pageNbr pageSize totalRecords : Int) : Int × Int :=
  let startIndex := goInt (pageNbr * pageSize)
  let endIndex := goInt (startIndex + pageSize)
  (startIndex, if endIndex > totalRecords then totalRecords else endIndex)

/-- A Go slice expression `a[s:e]` on a slice of length `n` is in bounds
iff `0 ≤ s ≤ e ≤ n` (otherwise it panics). -/
def sliceInBounds (s e n : Int) : Prop :=
  0 ≤ s ∧ s ≤ e ∧ e ≤ n

instance (s e n : Int) : Decidable (sliceInBounds s e n) := by
  unfold sliceInBounds; infer_instance

/-- Embedded from `GetPeerAddresses` (src/unnamed/part_000, lines 152-162):
for each record of the snapshot the handler reads `peer.Multiaddrs[0]`;
the indexing is fallible (it panics in Go on an empty slice), so the whole
traversal is `none` as soon as one record has no addresses. -/
def getPeerAddressesEntries : List NodeData → Option (List (String × String))
  | [] => some []
  | nd :: rest =>
    match nd.Multiaddrs with
    | [] => none
    | a :: _ =>
      match getPeerAddressesEntries rest with
      | none => none
      | some l => some ((nd.PeerId, a) :: l)

/-! ### Store lemmas -/

theorem storeGet_set_same {β : Type} (s : Store β) (k : String) (v : β) :
    storeGet (storeSet s k v) k = some v := by
  induction s with
  | nil => simp [storeSet, storeGet]
  | cons p rest ih =>
    obtain ⟨k', v'⟩ := p
    by_cases h : k' = k
    · simp [storeSet, h, storeGet]
    · simp [storeSet, h, storeGet, ih]

theorem storeGet_set_other {β : Type} (s : Store β) (k q : String) (v : β)
    (h : k ≠ q) : storeGet (storeSet s k v) q = storeGet s q := by
  induction s with
  | nil => simp [storeSet, storeGet, h]
  | cons p rest ih =>
    obtain ⟨k', v'⟩ := p
    by_cases hk : k' = k
    · subst hk; simp [storeSet, storeGet, h]
    · simp [storeSet, hk, storeGet, ih]

theorem storeGet_del_same {β : Type} (s : Store β) (k : String) :
    storeGet (storeDel s k) k = none := by
  induction s with
  | nil => simp [storeDel, storeGet]
  | cons p rest ih =>
    obtain ⟨k', v'⟩ := p
    by_cases h : k' = k
    · simp [storeDel, h, ih]
    · simp [storeDel, h, storeGet, ih]

theorem storeGet_del_other {β : Type} (s : Store β) (k q : String)
    (h : k ≠ q) : storeGet (storeDel s k) q = storeGet s q := by
  induction s with
  | nil => simp [storeDel, storeGet]
  | cons p rest ih =>
    obtain ⟨k', v'⟩ := p
    by_cases hk : k' = k
    · subst hk; simp [storeDel, storeGet, h, ih]
    · simp [storeDel, hk, storeGet, ih]

/-! ### Claim theorems -/

/-- C8: for every peer identity that has no record in the store,
`onConnected` (`Connected`) is a no-op: the whole tracker state (record
store and connect buffer) is unchanged and nothing is published, so no
ConnectBufferEntry is created for that identity. -/
theorem connected_unknown_noop (t : NodeEventTracker) (pid : String)
    (now : Int) (h : storeGet t.nodeData pid = none) :
    Connected t pid now = (t, []) := by
  unfold Connected
  rw [h]

/-- Witness for C8 at a concrete fresh tracker. -/
theorem connected_unknown_noop_witness :
    Connected (NewNodeEventTracker "1.0.0") "QmPeer" 5 =
      (NewNodeEventTracker "1.0.0", []) :=
  connected_unknown_noop (NewNodeEventTracker "1.0.0") "QmPeer" 5 rfl

/-- C6: `currentUptime(record)` equals `now - SessionStartedAt` when
`IsActive` is true and `0` otherwise, and `accumulatedUptime(record)`
equals the stored `AccumulatedUptime` plus `currentUptime(record)`; the
record served by `GetNodeHandler` carries exactly these derived values. -/
theorem uptime_computation_spec (nd : NodeData) (now : Int) :
    (∀ s, nd.IsActive = true → nd.SessionStartedAt = some s →
      GetCurrentUptime nd now = now - s)
    ∧ (nd.IsActive = false → GetCurrentUptime nd now = 0)
    ∧ GetAccumulatedUptime nd now = nd.AccumulatedUptime + GetCurrentUptime nd now
    ∧ (GetNodeHandlerData nd now).CurrentUptime = GetCurrentUptime nd now
    ∧ (GetNodeHandlerData nd now).AccumulatedUptime =
        nd.AccumulatedUptime + GetCurrentUptime nd now := by
  refine ⟨?_, ?_, rfl, rfl, rfl⟩
  · intro s ha hs
    simp [GetCurrentUptime, ha, hs]
  · intro ha
    simp [GetCurrentUptime, ha]

/-- Witness for C6 at a concrete active record. -/
theorem uptime_computation_spec_witness :
    GetCurrentUptime
        { zeroNodeData with IsActive := true, SessionStartedAt := some 10,
                            AccumulatedUptime := 7 } 25 = 25 - 10 :=
  (uptime_computation_spec
      { zeroNodeData with IsActive := true, SessionStartedAt := some 10,
                          AccumulatedUptime := 7 } 25).1 10 rfl rfl

/-- C4: for every timestamp `t`, `getUpdatedSince(t)` (`GetUpdatedNodes`)
returns exactly the records of the snapshot whose `LastUpdatedAt` is
strictly greater than `t`; a record whose `LastUpdatedAt` equals `t`
exactly is excluded. -/
theorem getUpdatedNodes_filter_spec (t : NodeEventTracker) (since : Int)
    (d : NodeData) :
    (d ∈ GetUpdatedNodes t since ↔
      d ∈ GetAllNodeData t ∧ since < d.LastUpdatedAt)
    ∧ (d.LastUpdatedAt = since → d ∉ GetUpdatedNodes t since) := by
  constructor
  · simp [GetUpdatedNodes, List.mem_filter]
  · intro he hm
    rw [GetUpdatedNodes, List.mem_filter] at hm
    have := hm.2
    simp [he] at this

/-- Witness for C4 on a concrete two-record store, mirroring
`TestGetUpdatedNodes`: only the record updated after the cutoff is
returned, and a record updated exactly at the cutoff is excluded. -/
theorem getUpdatedNodes_filter_spec_witness :
    ({ zeroNodeData with PeerId := "n2", LastUpdatedAt := 3600 } ∈
      GetUpdatedNodes
        { nodeData :=
            [("n1", { zeroNodeData with PeerId := "n1", LastUpdatedAt := 100 }),
             ("n2", { zeroNodeData with PeerId := "n2", LastUpdatedAt := 3600 })]
          ConnectBuffer := [], version := "1.0.0" } 100)
    ∧ ({ zeroNodeData with PeerId := "n1", LastUpdatedAt := 100 } ∉
      GetUpdatedNodes
        { nodeData :=
            [("n1", { zeroNodeData with PeerId := "n1", LastUpdatedAt := 100 }),
             ("n2", { zeroNodeData with PeerId := "n2", LastUpdatedAt := 3600 })]
          ConnectBuffer := [], version := "1.0.0" } 100) := by
  constructor
  · exact (getUpdatedNodes_filter_spec _ 100 _).1.mpr (by constructor <;> decide)
  · exact (getUpdatedNodes_filter_spec _ 100 _).2 rfl

/-- `goInt` is the identity on values already in the 64-bit `int` range. -/
theorem goInt_eq_self (x : Int) (hlo : -9223372036854775808 ≤ x)
    (hhi : x < 9223372036854775808) : goInt x = x := by
  unfold goInt
  omega

/-- C9 counterexample: with a 10-record snapshot, page number 1 and the
default page size 25 (both in the claim's admitted range), the bounds
computed by `GetNodeDataHandler` are `startIndex = 25 > endIndex = 10`, so
the claimed chain `0 ≤ startIndex ≤ endIndex ≤ totalRecords` fails and the
slice `allNodeData[25:10]` is out of bounds (a Go runtime panic); moreover
at larger path-reachable magnitudes the `pageNbr * pageSize` product wraps
in 64-bit `int` arithmetic and `startIndex` comes out negative, violating
the claimed `0 ≤ startIndex` too. -/
theorem pageBounds_counterexample :
    (¬ sliceInBounds
        (getNodeDataPageBounds 1 25 (List.replicate 10 zeroNodeData).length).1
        (getNodeDataPageBounds 1 25 (List.replicate 10 zeroNodeData).length).2
        (List.replicate 10 zeroNodeData).length)
    ∧ (getNodeDataPageBounds (2 ^ 61) 5 10).1 < 0 := by
  refine ⟨by decide, by decide⟩

/-- C9 amended: for non-negative page number, positive page size, a
non-negative record count, and a request small enough for the handler's
64-bit `int` arithmetic not to overflow
(`pageNbr * pageSize + pageSize < 2 ^ 63`), the computed bounds satisfy
`0 ≤ startIndex` and `endIndex ≤ totalRecords`, and whenever
`startIndex ≤ totalRecords` (the requested page starts no later than the
end of the data) also `startIndex ≤ endIndex`, so the page slice is in
bounds; for page numbers further beyond the last page `startIndex` exceeds
`endIndex` and the slice is out of bounds, and at overflowing magnitudes
`startIndex` wraps negative. -/
theorem pageBounds_partial_safety (pageNbr pageSize totalRecords : Int)
    (h0 : 0 ≤ pageNbr) (h1 : 0 < pageSize) (h2 : 0 ≤ totalRecords)
    (hno : pageNbr * pageSize + pageSize < 2 ^ 63) :
    0 ≤ (getNodeDataPageBounds pageNbr pageSize totalRecords).1
    ∧ (getNodeDataPageBounds pageNbr pageSize totalRecords).2 ≤ totalRecords
    ∧ ((getNodeDataPageBounds pageNbr pageSize totalRecords).1 ≤ totalRecords →
        sliceInBounds (getNodeDataPageBounds pageNbr pageSize totalRecords).1
          (getNodeDataPageBounds pageNbr pageSize totalRecords).2 totalRecords) := by
  have hs : 0 ≤ pageNbr * pageSize := mul_nonneg h0 (le_of_lt h1)
  have h63 : (2 : Int) ^ 63 = 9223372036854775808 := by norm_num
  rw [h63] at hno
  obtain ⟨P, hP⟩ : ∃ P, pageNbr * pageSize = P := ⟨_, rfl⟩
  rw [hP] at hs hno
  unfold getNodeDataPageBounds sliceInBounds
  dsimp only
  rw [hP]
  have hstart : goInt P = P := goInt_eq_self _ (by omega) (by omega)
  have hend : goInt (P + pageSize) = P + pageSize :=
    goInt_eq_self _ (by omega) (by omega)
  rw [hstart, hend]
  refine ⟨hs, ?_, ?_⟩
  · split <;> omega
  · intro hle
    refine ⟨hs, ?_, ?_⟩ <;> revert hle <;> split <;> omega

/-- Witness for C9 amended at page 0, page size 25, 10 records. -/
theorem pageBounds_partial_safety_witness :
    0 ≤ (getNodeDataPageBounds 0 25 10).1
    ∧ (getNodeDataPageBounds 0 25 10).2 ≤ 10
    ∧ ((getNodeDataPageBounds 0 25 10).1 ≤ 10 →
        sliceInBounds (getNodeDataPageBounds 0 25 10).1
          (getNodeDataPageBounds 0 25 10).2 10) :=
  pageBounds_partial_safety 0 25 10 (by decide) (by decide) (by decide)
    (by decide)

/-- C10 counterexample: a record created from a gossip update
(`HandleNodeData` on a fresh tracker, mirroring `TestHandleNodeData`'s
"New node data" input, which sets only `PeerId`, `LastUpdatedAt` and
`IsStaked`) is tracked with an empty `Multiaddrs` list, and on that
snapshot the `GetPeerAddresses` traversal hits an out-of-bounds
`Multiaddrs[0]` access (`none`). -/
theorem peerAddresses_counterexample :
    storeGet
        (HandleNodeData (NewNodeEventTracker "1.0.0")
          { zeroNodeData with PeerId := "p", LastUpdatedAt := 100, IsStaked := true }).1.nodeData
        "p" =
      some { zeroNodeData with PeerId := "p", LastUpdatedAt := 100, IsStaked := true }
    ∧ getPeerAddressesEntries
        (GetAllNodeData
          (HandleNodeData (NewNodeEventTracker "1.0.0")
            { zeroNodeData with PeerId := "p", LastUpdatedAt := 100, IsStaked := true }).1) =
      none :=
  ⟨rfl, rfl⟩

/-- C10 amended: the `GetPeerAddresses` traversal is in bounds exactly when
every record of the snapshot has a non-empty `Multiaddrs` list; since
records first created from gossip updates can have an empty list, the
indexing is not in bounds for every reachable store. -/
theorem peerAddresses_inBounds_iff_nonempty (records : List NodeData) :
    (getPeerAddressesEntries records).isSome = true ↔
      ∀ nd ∈ records, nd.Multiaddrs ≠ [] := by
  induction records with
  | nil => simp [getPeerAddressesEntries]
  | cons nd rest ih =>
    cases hm : nd.Multiaddrs with
    | nil =>
      simp only [getPeerAddressesEntries, hm]
      constructor
      · intro h; cases h
      · intro h
        exact absurd hm (h nd (List.mem_cons_self nd rest))
    | cons a as =>
      simp only [getPeerAddressesEntries, hm]
      cases hr : getPeerAddressesEntries rest with
      | none =>
        rw [hr] at ih
        simp only [Option.isSome_none] at ih ⊢
        constructor
        · intro h; cases h
        · intro h
          have : ∀ x ∈ rest, x.Multiaddrs ≠ [] := fun x hx =>
            h x (List.mem_cons_of_mem nd hx)
          exact absurd (ih.mpr this) (by decide)
      | some l =>
        rw [hr] at ih
        simp only [Option.isSome_some, true_iff] at ih
        simp only [Option.isSome_some, true_iff, List.mem_cons]
        intro x hx
        rcases hx with hx | hx
        · subst hx; simp [hm]
        · exact ih x hx

/-- Witness for C10 amended on a one-record snapshot with an address. -/
theorem peerAddresses_inBounds_iff_nonempty_witness :
    (getPeerAddressesEntries
        [{ zeroNodeData with PeerId := "p", Multiaddrs := ["/ip4/127.0.0.1/tcp/4001"] }]).isSome
      = true :=
  (peerAddresses_inBounds_iff_nonempty
      [{ zeroNodeData with PeerId := "p", Multiaddrs := ["/ip4/127.0.0.1/tcp/4001"] }]).mpr
    (by decide)

/-- Per-step freshness monotonicity of `HandleNodeData`: a stored record's
`LastUpdatedAt` never decreases under one gossip update (accepted or
rejected), and the record never disappears. -/
theorem handleNodeData_lastUpdated_step (t : NodeEventTracker) (d : NodeData)
    (pid : String) (s : NodeData) (h : storeGet t.nodeData pid = some s) :
    ∃ s', storeGet (HandleNodeData t d).1.nodeData pid = some s'
      ∧ s.LastUpdatedAt ≤ s'.LastUpdatedAt := by
  unfold HandleNodeData
  cases hd : storeGet t.nodeData d.PeerId with
  | none =>
    by_cases hp : d.PeerId = pid
    · subst hp; rw [h] at hd; cases hd
    · exact ⟨s, by rw [storeGet_set_other _ _ _ _ hp]; exact h, le_refl _⟩
  | some stored =>
    by_cases hlt : stored.LastUpdatedAt < d.LastUpdatedAt
    · simp only [hlt, if_pos]
      by_cases hp : d.PeerId = pid
      · subst hp
        rw [h] at hd
        injection hd with hd
        subst hd
        refine ⟨mergeRecord s d, storeGet_set_same _ _ _, ?_⟩
        simp only [mergeRecord]
        omega
      · exact ⟨s, by rw [storeGet_set_other _ _ _ _ hp]; exact h, le_refl _⟩
    · simp only [hlt, if_neg, ite_false]
      exact ⟨s, h, le_refl _⟩

/-- Freshness monotonicity across any sequence of gossip updates. -/
theorem handleAll_lastUpdated_mono (ds : List NodeData)
    (t : NodeEventTracker) (pid : String) (s : NodeData)
    (h : storeGet t.nodeData pid = some s) :
    ∃ s', storeGet (handleAll t ds).nodeData pid = some s'
      ∧ s.LastUpdatedAt ≤ s'.LastUpdatedAt := by
  induction ds generalizing t s with
  | nil => exact ⟨s, h, le_refl _⟩
  | cons d rest ih =>
    obtain ⟨s1, hs1, hle1⟩ := handleNodeData_lastUpdated_step t d pid s h
    obtain ⟨s2, hs2, hle2⟩ := ih (HandleNodeData t d).1 s1 hs1
    exact ⟨s2, hs2, le_trans hle1 hle2⟩

/-- C1: `applyUpdate` (`HandleNodeData`) accepts an incoming record iff no
stored record exists (a record is then created from the incoming data) or
the incoming `LastUpdatedAt` is strictly greater than the stored one; on
rejection the whole tracker state — in particular the stored record — is
completely unchanged; and across any sequence of updates the stored
`LastUpdatedAt` never decreases. -/
theorem handleNodeData_replay_protection (t : NodeEventTracker) (d : NodeData) :
    ((HandleNodeData t d).2 = true ↔
      (storeGet t.nodeData d.PeerId = none ∨
        ∀ s, storeGet t.nodeData d.PeerId = some s →
          s.LastUpdatedAt < d.LastUpdatedAt))
    ∧ (storeGet t.nodeData d.PeerId = none →
        storeGet (HandleNodeData t d).1.nodeData d.PeerId = some d)
    ∧ ((HandleNodeData t d).2 = false → (HandleNodeData t d).1 = t)
    ∧ (∀ ds pid s, storeGet t.nodeData pid = some s →
        ∃ s', storeGet (handleAll t ds).nodeData pid = some s'
          ∧ s.LastUpdatedAt ≤ s'.LastUpdatedAt) := by
  refine ⟨?_, ?_, ?_, fun ds pid s h => handleAll_lastUpdated_mono ds t pid s h⟩
  · unfold HandleNodeData
    cases hd : storeGet t.nodeData d.PeerId with
    | none => simp
    | some stored =>
      dsimp only
      by_cases hlt : stored.LastUpdatedAt < d.LastUpdatedAt
      · rw [if_pos hlt]
        simp only [true_iff]
        exact Or.inr (fun s hs => by injection hs with hs; rw [hs] at hlt; exact hlt)
      · rw [if_neg hlt]
        simp only [false_iff, Bool.false_eq_true]
        intro hc
        rcases hc with hc | hc
        · cases hc
        · exact hlt (hc stored rfl)
  · intro hd
    unfold HandleNodeData
    rw [hd]
    exact storeGet_set_same _ _ _
  · unfold HandleNodeData
    cases hd : storeGet t.nodeData d.PeerId with
    | none => simp
    | some stored =>
      by_cases hlt : stored.LastUpdatedAt < d.LastUpdatedAt
      · simp [hlt]
      · simp [hlt]

/-- Witness for C1, mirroring `TestHandleNodeData`: a fresh tracker accepts
the first update and creates the record. -/
theorem handleNodeData_replay_protection_witness :
    (HandleNodeData (NewNodeEventTracker "1.0.0")
        { zeroNodeData with PeerId := "p", LastUpdatedAt := 100, IsStaked := true }).2
      = true :=
  (handleNodeData_replay_protection (NewNodeEventTracker "1.0.0")
      { zeroNodeData with PeerId := "p", LastUpdatedAt := 100, IsStaked := true }).1.mpr
    (Or.inl rfl)

/-- Success shape of one `addTaskResult` call: the stored record's counters
are incremented by the deltas, the matching timestamp is stamped, the
updated record is the one written and published, and other peers' records
are untouched. -/
theorem updateTwitter_success (t : NodeEventTracker) (pid : String)
    (cd td : Int) (b : Bool) (n : Int) (nd : NodeData)
    (h : storeGet t.nodeData pid = some nd) :
    ∃ t' nd', UpdateNodeDataTwitter t pid cd td b n = some (t', nd')
      ∧ storeGet t'.nodeData pid = some nd'
      ∧ nd'.CompletedTasks = nd.CompletedTasks + cd
      ∧ nd'.TaskTimeouts = nd.TaskTimeouts + td
      ∧ nd'.LastTimeoutAt = (if b then n else nd.LastTimeoutAt)
      ∧ nd'.LastCompletedAt = (if b then nd.LastCompletedAt else n)
      ∧ (∀ q, pid ≠ q → storeGet t'.nodeData q = storeGet t.nodeData q) := by
  unfold UpdateNodeDataTwitter
  rw [h]
  exact ⟨_, _, rfl, storeGet_set_same _ _ _, rfl, rfl, rfl, rfl,
    fun q hq => storeGet_set_other _ _ _ _ hq⟩

/-- C3: `addTaskResult` (`UpdateNodeDataTwitter`) fails with NotFound
(`none`, leaving the state with the caller unchanged) when no record exists
for the peer; when a record exists it adds the deltas to the stored
counters (additive merge), and applying two updates in sequence — in either
order — yields counters equal to the original value plus the sum of both
deltas. -/
theorem updateTwitter_spec (t : NodeEventTracker) (pid : String)
    (cd1 td1 cd2 td2 : Int) (b1 b2 : Bool) (n1 n2 : Int) :
    (storeGet t.nodeData pid = none →
      UpdateNodeDataTwitter t pid cd1 td1 b1 n1 = none)
    ∧ (∀ nd, storeGet t.nodeData pid = some nd →
        ∃ t' nd', UpdateNodeDataTwitter t pid cd1 td1 b1 n1 = some (t', nd')
          ∧ storeGet t'.nodeData pid = some nd'
          ∧ nd'.CompletedTasks = nd.CompletedTasks + cd1
          ∧ nd'.TaskTimeouts = nd.TaskTimeouts + td1)
    ∧ (∀ nd, storeGet t.nodeData pid = some nd →
        ∃ t12 nd12,
          (UpdateNodeDataTwitter t pid cd1 td1 b1 n1).bind
              (fun r => UpdateNodeDataTwitter r.1 pid cd2 td2 b2 n2) =
            some (t12, nd12)
          ∧ storeGet t12.nodeData pid = some nd12
          ∧ nd12.CompletedTasks = nd.CompletedTasks + (cd1 + cd2)
          ∧ nd12.TaskTimeouts = nd.TaskTimeouts + (td1 + td2))
    ∧ (∀ nd, storeGet t.nodeData pid = some nd →
        ∃ t21 nd21,
          (UpdateNodeDataTwitter t pid cd2 td2 b2 n2).bind
              (fun r => UpdateNodeDataTwitter r.1 pid cd1 td1 b1 n1) =
            some (t21, nd21)
          ∧ storeGet t21.nodeData pid = some nd21
          ∧ nd21.CompletedTasks = nd.CompletedTasks + (cd1 + cd2)
          ∧ nd21.TaskTimeouts = nd.TaskTimeouts + (td1 + td2)) := by
  refine ⟨?_, ?_, ?_, ?_⟩
  · intro h
    unfold UpdateNodeDataTwitter
    rw [h]
  · intro nd h
    obtain ⟨t', nd', h1, h2, h3, h4, _, _, _⟩ :=
      updateTwitter_success t pid cd1 td1 b1 n1 nd h
    exact ⟨t', nd', h1, h2, h3, h4⟩
  · intro nd h
    obtain ⟨t1, nd1, h1, hget1, hc1, ht1, _, _, _⟩ :=
      updateTwitter_success t pid cd1 td1 b1 n1 nd h
    obtain ⟨t2, nd2, h2, hget2, hc2, ht2, _, _, _⟩ :=
      updateTwitter_success t1 pid cd2 td2 b2 n2 nd1 hget1
    refine ⟨t2, nd2, ?_, hget2, by omega, by omega⟩
    rw [h1]
    exact h2
  · intro nd h
    obtain ⟨t1, nd1, h1, hget1, hc1, ht1, _, _, _⟩ :=
      updateTwitter_success t pid cd2 td2 b2 n2 nd h
    obtain ⟨t2, nd2, h2, hget2, hc2, ht2, _, _, _⟩ :=
      updateTwitter_success t1 pid cd1 td1 b1 n1 nd1 hget1
    refine ⟨t2, nd2, ?_, hget2, by omega, by omega⟩
    rw [h1]
    exact h2

/-- Witness for C3, mirroring `TestUpdateNodeDataTwitter`: a record with 5
completed tasks receives a `{+10 completed, +1 timeout}` update and ends
with 15 and 1. -/
theorem updateTwitter_spec_witness :
    ∃ t' nd',
      UpdateNodeDataTwitter
          { nodeData :=
              [("p", { zeroNodeData with PeerId := "p", CompletedTasks := 5,
                                         IsStaked := true })]
            ConnectBuffer := [], version := "1.0.0" }
          "p" 10 1 true 50 = some (t', nd')
      ∧ storeGet t'.nodeData "p" = some nd'
      ∧ nd'.CompletedTasks = 5 + 10
      ∧ nd'.TaskTimeouts = 0 + 1 := by
  obtain ⟨t', nd', h1, h2, h3, h4⟩ :=
    (updateTwitter_spec
        { nodeData :=
            [("p", { zeroNodeData with PeerId := "p", CompletedTasks := 5,
                                       IsStaked := true })]
          ConnectBuffer := [], version := "1.0.0" }
        "p" 10 1 0 0 true true 50 50).2.1 _ rfl
  exact ⟨t', nd', h1, h2, h3, h4⟩

/-- C2 counterexample: on a reachable state (record created by a gossip
update, then a second connection buffered by `Connected`), `Disconnected`
leaves the record ACTIVE with `ActivityKind = Joined` — the repository's
own test asserts this ("Will be active because Joined is called after
Left") — refuting the claim that the record ends inactive whether or not a
ConnectBufferEntry existed. -/
theorem disconnected_buffered_counterexample :
    (storeGet
        (Disconnected
          (Connected
            (HandleNodeData (NewNodeEventTracker "1.0.0")
              { zeroNodeData with PeerId := "p", IsActive := true,
                                  SessionStartedAt := some 10,
                                  LastUpdatedAt := 5 }).1
            "p" 10).1
          "p" 25).1.nodeData "p").map NodeData.IsActive = some true
    ∧ (storeGet
        (Disconnected
          (Connected
            (HandleNodeData (NewNodeEventTracker "1.0.0")
              { zeroNodeData with PeerId := "p", IsActive := true,
                                  SessionStartedAt := some 10,
                                  LastUpdatedAt := 5 }).1
            "p" 10).1
          "p" 25).1.nodeData "p").map NodeData.ActivityKind =
      some Activity.Joined :=
  ⟨rfl, rfl⟩

/-- C2 amended: for every peer that has a record, when no
ConnectBufferEntry exists `onDisconnected` sets `IsActive = false` and
`ActivityKind = Left`, adds the measured session duration to
`AccumulatedUptime`, clears `SessionStartedAt`, and publishes the updated
record; when an entry exists it removes the entry and closes the session
the same way (duration falling back to the entry's connect time) but then
immediately re-opens a session, so the record ends ACTIVE
(`ActivityKind = Joined`, `SessionStartedAt = now`) — still with the
session duration added and the record published. -/
theorem disconnected_session_close (t : NodeEventTracker) (pid : String)
    (now : Int) (nd : NodeData) (h : storeGet t.nodeData pid = some nd) :
    (storeGet t.ConnectBuffer pid = none →
      ∃ r, Disconnected t pid now =
          ({ t with nodeData := storeSet t.nodeData pid r }, [r])
        ∧ r.IsActive = false
        ∧ r.ActivityKind = .Left
        ∧ r.SessionStartedAt = none
        ∧ r.AccumulatedUptime = nd.AccumulatedUptime +
            (match nd.SessionStartedAt with | some s => now - s | none => 0)
        ∧ storeGet (Disconnected t pid now).1.nodeData pid = some r)
    ∧ (∀ e, storeGet t.ConnectBuffer pid = some e →
        ∃ r, Disconnected t pid now =
            ({ t with nodeData := storeSet t.nodeData pid r,
                      ConnectBuffer := storeDel t.ConnectBuffer pid }, [r])
          ∧ r.IsActive = true
          ∧ r.ActivityKind = .Joined
          ∧ r.SessionStartedAt = some now
          ∧ r.AccumulatedUptime = nd.AccumulatedUptime +
              (match nd.SessionStartedAt with
               | some s => now - s
               | none => now - e.connectTime)
          ∧ storeGet (Disconnected t pid now).1.nodeData pid = some r
          ∧ storeGet (Disconnected t pid now).1.ConnectBuffer pid = none) := by
  constructor
  · intro hb
    refine ⟨leftRecord nd now none, ?_, rfl, rfl, rfl, ?_, ?_⟩
    · unfold Disconnected
      rw [h, hb]
    · cases hs : nd.SessionStartedAt <;> simp [leftRecord, hs]
    · unfold Disconnected
      rw [h, hb]
      dsimp only
      exact storeGet_set_same _ _ _
  · intro e hb
    refine ⟨joinedRecord (leftRecord nd now (some e.connectTime)) t.version now,
      ?_, rfl, rfl, rfl, ?_, ?_, ?_⟩
    · unfold Disconnected
      rw [h, hb]
    · cases hs : nd.SessionStartedAt <;>
        simp [leftRecord, joinedRecord, hs]
    · unfold Disconnected
      rw [h, hb]
      dsimp only
      exact storeGet_set_same _ _ _
    · unfold Disconnected
      rw [h, hb]
      dsimp only
      exact storeGet_del_same _ _

/-- Witness for C2 amended: a buffered disconnect removes the buffer
entry. -/
theorem disconnected_session_close_witness :
    storeGet
        (Disconnected
          { nodeData :=
              [("p", { zeroNodeData with PeerId := "p", IsActive := true,
                                         SessionStartedAt := some 10 })]
            ConnectBuffer :=
              [("p", { nodeData :=
                        { zeroNodeData with PeerId := "p", IsActive := true,
                                            SessionStartedAt := some 10 }
                       connectTime := 10 })]
            version := "1.0.0" }
          "p" 25).1.ConnectBuffer "p" = none := by
  have hm :=
    (disconnected_session_close
        { nodeData :=
            [("p", { zeroNodeData with PeerId := "p", IsActive := true,
                                       SessionStartedAt := some 10 })]
          ConnectBuffer :=
            [("p", { nodeData :=
                      { zeroNodeData with PeerId := "p", IsActive := true,
                                          SessionStartedAt := some 10 }
                     connectTime := 10 })]
          version := "1.0.0" }
        "p" 25
        { zeroNodeData with PeerId := "p", IsActive := true,
                            SessionStartedAt := some 10 } rfl).2
      { nodeData :=
          { zeroNodeData with PeerId := "p", IsActive := true,
                              SessionStartedAt := some 10 }
        connectTime := 10 } rfl
  obtain ⟨r, _, _, _, _, _, _, hb⟩ := hm
  exact hb

/-- One `Connected` call on an active record with an existing buffer
entry: the record is re-stamped and the buffer is left untouched. -/
theorem connected_active_step (t : NodeEventTracker) (pid : String) (n : Int)
    (nd : NodeData) (h : storeGet t.nodeData pid = some nd)
    (ha : nd.IsActive = true) (e : ConnectBufferEntry)
    (hb : storeGet t.ConnectBuffer pid = some e) :
    Connected t pid n =
      ({ t with nodeData :=
          storeSet t.nodeData pid { nd with LastSeenAt := n, LastUpdatedAt := n } },
       [{ nd with LastSeenAt := n, LastUpdatedAt := n }]) := by
  unfold Connected
  rw [h]
  dsimp only
  rw [hb]
  simp [ha]

/-- C7: calling `onConnected` (`Connected`) again for a peer whose record
is already active re-stamps `LastSeenAt` and `LastUpdatedAt` with the new
time but leaves every other field — in particular `SessionStartedAt` —
equal to its value after the first call, and does not touch the connect
buffer (the entry placed by the first call is not replaced). -/
theorem connected_active_idempotent (t : NodeEventTracker) (pid : String)
    (n1 n2 : Int) (nd : NodeData) (h : storeGet t.nodeData pid = some nd)
    (ha : nd.IsActive = true) :
    ∃ nd1, storeGet (Connected t pid n1).1.nodeData pid = some nd1
      ∧ storeGet (Connected (Connected t pid n1).1 pid n2).1.nodeData pid =
          some { nd1 with LastSeenAt := n2, LastUpdatedAt := n2 }
      ∧ (Connected (Connected t pid n1).1 pid n2).1.ConnectBuffer =
          (Connected t pid n1).1.ConnectBuffer := by
  have g1 : storeGet (Connected t pid n1).1.nodeData pid =
      some { nd with LastSeenAt := n1, LastUpdatedAt := n1 } := by
    simp [Connected, h, ha, storeGet_set_same]
  have ha1 : ({ nd with LastSeenAt := n1, LastUpdatedAt := n1 } : NodeData).IsActive
      = true := ha
  obtain ⟨e, he⟩ : ∃ e, storeGet (Connected t pid n1).1.ConnectBuffer pid = some e := by
    cases hb : storeGet t.ConnectBuffer pid with
    | some e => exact ⟨e, by simp [Connected, h, ha, hb]⟩
    | none =>
      exact ⟨⟨nd, n1⟩, by simp [Connected, h, ha, hb, storeGet_set_same]⟩
  have hstep := connected_active_step (Connected t pid n1).1 pid n2 _ g1 ha1 e he
  refine ⟨{ nd with LastSeenAt := n1, LastUpdatedAt := n1 }, g1, ?_, ?_⟩
  · rw [hstep]
    exact storeGet_set_same _ _ _
  · rw [hstep]

/-- Witness for C7: two `Connected` calls at times 11 and 12 on an active
record. -/
theorem connected_active_idempotent_witness :
    ∃ nd1,
      storeGet
          (Connected
            { nodeData :=
                [("p", { zeroNodeData with PeerId := "p", IsActive := true,
                                           SessionStartedAt := some 10 })]
              ConnectBuffer := [], version := "1.0.0" }
            "p" 11).1.nodeData "p" = some nd1
      ∧ storeGet
          (Connected
            (Connected
              { nodeData :=
                  [("p", { zeroNodeData with PeerId := "p", IsActive := true,
                                             SessionStartedAt := some 10 })]
                ConnectBuffer := [], version := "1.0.0" }
              "p" 11).1
            "p" 12).1.nodeData "p" =
          some { nd1 with LastSeenAt := 12, LastUpdatedAt := 12 }
      ∧ (Connected
            (Connected
              { nodeData :=
                  [("p", { zeroNodeData with PeerId := "p", IsActive := true,
                                             SessionStartedAt := some 10 })]
                ConnectBuffer := [], version := "1.0.0" }
              "p" 11).1
            "p" 12).1.ConnectBuffer =
          (Connected
            { nodeData :=
                [("p", { zeroNodeData with PeerId := "p", IsActive := true,
                                           SessionStartedAt := some 10 })]
              ConnectBuffer := [], version := "1.0.0" }
            "p" 11).1.ConnectBuffer :=
  connected_active_idempotent
    { nodeData :=
        [("p", { zeroNodeData with PeerId := "p", IsActive := true,
                                   SessionStartedAt := some 10 })]
      ConnectBuffer := [], version := "1.0.0" }
    "p" 11 12
    { zeroNodeData with PeerId := "p", IsActive := true,
                        SessionStartedAt := some 10 }
    rfl rfl

/-- The strict ranking comparison, in arithmetic form: `a` ranks strictly
before `b` iff `a`'s last completion is later, or equal with an earlier
last timeout. -/
theorem twitterBefore_iff (a b : NodeData) :
    twitterBefore a b = true ↔
      (b.LastCompletedAt < a.LastCompletedAt ∨
        (a.LastCompletedAt = b.LastCompletedAt ∧
          a.LastTimeoutAt < b.LastTimeoutAt)) := by
  unfold twitterBefore
  split_ifs with h <;> simp only [decide_eq_true_eq] <;> omega

/-- Negated ranking comparison, in arithmetic form. -/
theorem twitterBefore_false_iff (a b : NodeData) :
    twitterBefore a b = false ↔
      (a.LastCompletedAt < b.LastCompletedAt ∨
        (a.LastCompletedAt = b.LastCompletedAt ∧
          b.LastTimeoutAt ≤ a.LastTimeoutAt)) := by
  unfold twitterBefore
  split_ifs with h <;> simp only [decide_eq_false_iff_not] <;> omega

theorem twitterBefore_asymm (a b : NodeData)
    (h : twitterBefore a b = true) : twitterBefore b a = false := by
  rw [twitterBefore_iff] at h
  rw [twitterBefore_false_iff]
  omega

theorem twitterBefore_negtrans (a b c : NodeData)
    (h1 : twitterBefore a b = false) (h2 : twitterBefore b c = false) :
    twitterBefore a c = false := by
  rw [twitterBefore_false_iff] at h1 h2 ⊢
  omega

theorem twitterBefore_of_key_eq (a b : NodeData)
    (h : twitterKey a = twitterKey b) : twitterBefore a b = false := by
  unfold twitterKey at h
  rw [Prod.mk.injEq] at h
  rw [twitterBefore_false_iff]
  omega

theorem mem_insertRanked (x a : NodeData) (l : List NodeData) :
    a ∈ insertRanked x l ↔ a = x ∨ a ∈ l := by
  induction l with
  | nil => simp [insertRanked]
  | cons y ys ih =>
    unfold insertRanked
    split_ifs with h
    · rw [List.mem_cons, ih, List.mem_cons]
      tauto
    · exact List.mem_cons

theorem perm_insertRanked (x : NodeData) (l : List NodeData) :
    List.Perm (insertRanked x l) (x :: l) := by
  induction l with
  | nil => exact List.Perm.refl _
  | cons y ys ih =>
    unfold insertRanked
    split_ifs with h
    · exact (List.Perm.cons y ih).trans (List.Perm.swap x y ys)
    · exact List.Perm.refl _

theorem pairwise_insertRanked (x : NodeData) (l : List NodeData)
    (hl : l.Pairwise (fun a b => twitterBefore b a = false)) :
    (insertRanked x l).Pairwise (fun a b => twitterBefore b a = false) := by
  induction l with
  | nil => simp [insertRanked]
  | cons y ys ih =>
    rcases List.pairwise_cons.mp hl with ⟨hy, hys⟩
    unfold insertRanked
    split_ifs with h
    · refine List.pairwise_cons.mpr ⟨?_, ih hys⟩
      intro b hb
      rcases (mem_insertRanked x b ys).mp hb with rfl | hb
      · exact twitterBefore_asymm y b h
      · exact hy b hb
    · refine List.pairwise_cons.mpr ⟨?_, hl⟩
      intro b hb
      rcases List.mem_cons.mp hb with rfl | hb
      · exact Bool.eq_false_iff.mpr h
      · exact twitterBefore_negtrans b y x (hy b hb) (Bool.eq_false_iff.mpr h)

theorem filter_insertRanked (x : NodeData) (l : List NodeData)
    (k : Int × Int) :
    (insertRanked x l).filter (fun d => decide (twitterKey d = k)) =
      if twitterKey x = k then
        x :: l.filter (fun d => decide (twitterKey d = k))
      else l.filter (fun d => decide (twitterKey d = k)) := by
  induction l with
  | nil =>
    by_cases hx : twitterKey x = k <;> simp [insertRanked, hx]
  | cons y ys ih =>
    unfold insertRanked
    by_cases h : twitterBefore y x = true
    · rw [if_pos h]
      by_cases hy : twitterKey y = k
      · have hx : ¬ twitterKey x = k := by
          intro hx
          have hf := twitterBefore_of_key_eq y x (by rw [hy, hx])
          rw [hf] at h
          cases h
        simp [List.filter_cons, hy, ih, hx]
      · by_cases hx : twitterKey x = k <;>
          simp [List.filter_cons, hy, ih, hx]
    · rw [if_neg h]
      by_cases hx : twitterKey x = k <;>
        simp [List.filter_cons, hx]

/-- C5: `rank` (`SortNodesByTwitterReliability`) orders records by last
completion time descending, ties broken by last timeout time ascending
(first conjunct states this comparison in arithmetic form); the output is
sorted under that order (no element strictly ranks before one placed
earlier), it is a permutation of the input, and the sort is stable: for
every composite key the records carrying that key appear in their input
order. -/
theorem sortTwitter_stable_total_order (l : List NodeData) :
    (∀ a b : NodeData, twitterBefore a b = true ↔
      (b.LastCompletedAt < a.LastCompletedAt ∨
        (a.LastCompletedAt = b.LastCompletedAt ∧
          a.LastTimeoutAt < b.LastTimeoutAt)))
    ∧ (SortNodesByTwitterReliability l).Pairwise
        (fun a b => twitterBefore b a = false)
    ∧ List.Perm (SortNodesByTwitterReliability l) l
    ∧ (∀ k : Int × Int,
        (SortNodesByTwitterReliability l).filter
            (fun d => decide (twitterKey d = k)) =
          l.filter (fun d => decide (twitterKey d = k))) := by
  refine ⟨twitterBefore_iff, ?_, ?_, ?_⟩
  · induction l with
    | nil => simp [SortNodesByTwitterReliability]
    | cons x xs ih => exact pairwise_insertRanked x _ ih
  · induction l with
    | nil => exact List.Perm.refl _
    | cons x xs ih =>
      exact (perm_insertRanked x _).trans (List.Perm.cons x ih)
  · intro k
    induction l with
    | nil => rfl
    | cons x xs ih =>
      show (insertRanked x (SortNodesByTwitterReliability xs)).filter _ = _
      rw [filter_insertRanked]
      by_cases hx : twitterKey x = k <;>
        simp [List.filter_cons, hx, ih]
